import Mathlib

/-!
Verification development for the rxntorch repository.

The definitions below are a shallow embedding of the code in
`src/rxntorch/models/reactivity_network.py` (reactivity training loop) and
`src/rxntorch/containers/dataset.py` (vocabulary building, tokenization and
shard splitting).  Tensors are modelled per example as functions from flat
positions to rational scores/labels (real numbers for the loss, where the
elementwise binary cross-entropy involves `log`/`exp`); floats are idealised
as exact arithmetic, which is standard for reasoning about the masking and
aggregation structure verified here.
-/

/- ### Stable descending sort

`sorted(d, key=d.get, reverse=True)` in Python is a stable sort in descending
key order (ties keep the original order), and `torch.topk` is modelled as
taking the first `k` positions of a stable descending sort of the flattened
scores.  Both are embedded through Mathlib's `List.insertionSort`, which
inserts each element before the first element whose key is not larger, hence
is stable. -/

/-- The descending-key comparison used for ranking: `a` may precede `b`
when `key b ≤ key a`. -/
def descRel {α β : Type} [LinearOrder β] (key : α → β) : α → α → Prop :=
  fun a b => key b ≤ key a

instance {α β : Type} [LinearOrder β] (key : α → β) : DecidableRel (descRel key) :=
  fun a b => inferInstanceAs (Decidable (key b ≤ key a))

instance {α β : Type} [LinearOrder β] (key : α → β) : IsTotal α (descRel key) :=
  ⟨fun a b => le_total (key b) (key a)⟩

instance {α β : Type} [LinearOrder β] (key : α → β) : IsTrans α (descRel key) :=
  ⟨fun _ _ _ h₁ h₂ => le_trans h₂ h₁⟩

/-- Stable sort in descending order of `key` (Python's
`sorted(_, key=key, reverse=True)`). -/
def sortDescBy {α β : Type} [LinearOrder β] (key : α → β) (l : List α) : List α :=
  l.insertionSort (descRel key)

/- ### ReactivityNet.forward (reactivity_network.py lines 21-27)

One example of the batch is a flattened vector of `n` atom-pair positions,
with a score function (the output of the reactivity scoring layers, which the
spec treats as an opaque differentiable module) and a label function with
values in {-1, 0, 1}. -/

/-- Line 25: `masked_scores = torch.where(blabels == -1.0, pair_scores - 10000, pair_scores)`. -/
def maskedScore (score label : Nat → ℚ) (q : Nat) : ℚ :=
  if label q = -1 then score q - 10000 else score q

/-- Indices of the `k` largest values of `key` on positions `0, ..., n-1`,
in descending value order (`torch.topk(..., k)` on a flattened tensor of
size `n`, modelling tie-breaking as stable). -/
def topkIdx (k : Nat) (key : Nat → ℚ) (n : Nat) : List Nat :=
  (sortDescBy key (List.range n)).take k

/-- Line 26: the top-20 indices of the masked scores returned by
`ReactivityNet.forward` for one example. -/
def forwardTopK (n : Nat) (score label : Nat → ℚ) : List Nat :=
  topkIdx 20 (maskedScore score label) n

/- ### Accuracy computation (reactivity_network.py lines 90-109) -/

/-- Lines 91-92 and 99-101, restricted to one example `i`: the flat positions
whose bond label equals 1, in increasing position order
(`torch.where(flatten(bond_labels) == 1)` returns row-major order). -/
def molLabels (n : Nat) (label : Nat → ℚ) : List Nat :=
  (List.range n).filter (fun p => label p = 1)

/-- Lines 103 and 106: `hits_10[i].all()` — every positive-label position of
the example occurs among the first 10 entries of its top-20 index list. -/
def allCorrect10 (n : Nat) (score label : Nat → ℚ) : Bool :=
  (molLabels n label).all (fun p => ((forwardTopK n score label).take 10).contains p)

/-- Lines 104 and 107: `hits_20[i].all()` — every positive-label position of
the example occurs among its top-20 index list. -/
def allCorrect20 (n : Nat) (score label : Nat → ℚ) : Bool :=
  (molLabels n label).all (fun p => (forwardTopK n score label).contains p)

/-- One example of a batch: `n` flattened atom-pair positions with their
pair scores and bond labels. -/
structure BatchExample where
  n : Nat
  score : Nat → ℚ
  label : Nat → ℚ

/-- Line 108: `sum_acc_10 += sum(all_correct_10).item()` for one batch. -/
def sumAcc10 (batch : List BatchExample) : Nat :=
  batch.countP (fun ex => allCorrect10 ex.n ex.score ex.label)

/-- Line 109: `sum_acc_20 += sum(all_correct_20).item()` for one batch. -/
def sumAcc20 (batch : List BatchExample) : Nat :=
  batch.countP (fun ex => allCorrect20 ex.n ex.score ex.label)

/- ### Loss computation (reactivity_network.py lines 74-78)

The loss acts on the whole flattened batch of `n` elements.  The elementwise
`F.binary_cross_entropy_with_logits(x, y)` is `(1 - y) * x + log(1 + exp(-x))`,
the real-valued function the float kernel approximates. -/

/-- Elementwise binary cross-entropy with logits. -/
noncomputable def bce_with_logits (x y : ℝ) : ℝ :=
  (1 - y) * x + Real.log (1 + Real.exp (-x))

/-- Line 74: `F.relu`, clamping labels to non-negative. -/
def relu (x : ℝ) : ℝ := max x 0

/-- Lines 74-77: elementwise BCE-with-logits against `relu(labels)`,
multiplied by the mask `(labels != -1).float()`, then `torch.mean`, which
divides by the total number `n` of elements. -/
noncomputable def iterateLoss (n : Nat) (score label : Nat → ℝ) : ℝ :=
  (∑ q ∈ Finset.range n,
      bce_with_logits (score q) (relu (label q)) * (if label q = -1 then (0:ℝ) else 1))
    / (n : ℝ)

/-- The loss as described by the claim: the same masked elementwise BCE, but
averaged over the number of non-masked elements only. -/
noncomputable def claimedLoss (n : Nat) (score label : Nat → ℝ) : ℝ :=
  (∑ q ∈ Finset.range n,
      bce_with_logits (score q) (relu (label q)) * (if label q = -1 then (0:ℝ) else 1))
    / (((Finset.range n).filter (fun q => label q ≠ -1)).card : ℝ)

/- ### Trainer state (reactivity_network.py lines 30-144)

For the learning-rate and frame-effect claims the trainer is modelled by the
state the loop can touch: the flattened model parameters, the Adam moment
buffers, and the learning rate of every optimizer parameter group.  The
numeric content of one Adam step is abstracted as `optStep`; `lr0` is the
constructor-configured `self.lr`, which is never reassigned. -/

structure TrainerState where
  params : List ℚ
  moments : List ℚ
  lrs : List ℚ
deriving DecidableEq

/-- One iteration of the loop body of `ReactivityTrainer.iterate`
(lines 60-144): the backward/optimizer step runs only when `train` is true
(lines 81-89), while the block at lines 142-144 runs unconditionally —
`(i+1) % 1 == 0` always holds — and assigns `param_group['lr'] = self.lr * 0.9`
to every group. -/
def iterateBatch (lr0 : ℚ) (optStep : List ℚ × List ℚ → List ℚ × List ℚ)
    (train : Bool) (st : TrainerState) : TrainerState :=
  let pm := if train then optStep (st.params, st.moments) else (st.params, st.moments)
  { params := pm.1, moments := pm.2, lrs := st.lrs.map (fun _ => lr0 * (9 / 10)) }

/-- `ReactivityTrainer.iterate` over `n` batches. -/
def iterateLoop (lr0 : ℚ) (optStep : List ℚ × List ℚ → List ℚ × List ℚ)
    (train : Bool) : Nat → TrainerState → TrainerState
  | 0, st => st
  | Nat.succ m, st => iterateLoop lr0 optStep train m (iterateBatch lr0 optStep train st)

/- ### Dataset layer (containers/dataset.py)

`Rxn` lives in `rxntorch/containers/reaction.py` and the SMILES tokenizer in
`rxntorch/smiles_parser.py`, neither of which is part of the sources; the
spec treats the tokenizer as an external utility that may fail per molecule,
so it is abstracted as a function `parseMol : String → Option (List String)`
(`none` models a raised exception). -/

/-- Modelled from the spec: a reaction of `rxntorch/containers/reaction.py`
(absent from the sources) carries its original SMILES string and ordered
lists of reactant, reagent and product molecule strings; `create_vocab`
accesses the three period-separated sides of reaction `i` and splits them
into molecule strings, and `tokenize_data` iterates the molecules of each
side directly. -/
structure Rxn where
  smile : String
  reactants : List String
  reagents : List String
  products : List String
deriving DecidableEq

/-- dataset.py lines 98-113: tokenize each molecule of one side, append the
literal separator token after each, then `pop()` the trailing separator;
`pop` on an empty list raises, which the surrounding bare `except` turns
into a failed reaction, hence `none`. -/
def tokenizeSide (parseMol : String → Option (List String)) (mols : List String) :
    Option (List String) := do
  let parts ← mols.mapM parseMol
  let glued := (parts.map (fun ts => ts ++ ["."])).flatten
  if glued.isEmpty then none else some glued.dropLast

/-- dataset.py lines 94-115 (and similarly lines 170-187 of
`tokenize_data`): tokenize the three sides, then concatenate the reactant
tokens, the boundary token and the reagent tokens into the combined
reactant-side sequence; the product side stays separate.  Any failure while
parsing or popping fails the whole reaction. -/
def tokenizeRxn (parseMol : String → Option (List String)) (r : Rxn) :
    Option (List String × List String) := do
  let reac ← tokenizeSide parseMol r.reactants
  let reag ← tokenizeSide parseMol r.reagents
  let prods ← tokenizeSide parseMol r.products
  some (reac ++ [">"] ++ reag, prods)

/-- A Python `dict` from token to frequency, as an association list whose
key order is insertion (= first-seen) order, the iteration order of
Python 3.7+ dicts. -/
abbrev Vocab := List (String × Nat)

/-- dataset.py lines 117-121: `vocab[token] += 1` if present else
`vocab[token] = 1`, keeping insertion order. -/
def bump (v : Vocab) (t : String) : Vocab :=
  match v with
  | [] => [(t, 1)]
  | (s, c) :: rest => if s = t then (s, c + 1) :: rest else (s, c) :: bump rest t

/-- Fold `bump` over a token sequence. -/
def bumpAll (v : Vocab) (ts : List String) : Vocab :=
  ts.foldl bump v

/-- Frequency recorded for token `t` (0 when absent). -/
def countOf (v : Vocab) (t : String) : Nat :=
  match v with
  | [] => 0
  | (s, c) :: rest => if s = t then c else countOf rest t

/-- The keys of the vocabulary in insertion order. -/
def keys (v : Vocab) : List String :=
  v.map Prod.fst

/-- The mutable state of `RxnDataset.create_vocab` while scanning the corpus:
the two frequency dicts plus the local `error_rsmi` mapping from failing
reaction index to original reaction string. -/
structure VocabState where
  vocab_reactants : Vocab
  vocab_products : Vocab
  error_rsmi : List (Nat × String)
deriving DecidableEq

/-- dataset.py lines 92-129, body of the loop for reaction `i`: on success
both frequency dicts are updated with the reaction's token sequences; on any
exception the bare `except` records `error_rsmi[i] = rxn_smiles[i]` and
leaves both dicts untouched. -/
def create_vocab_step (parseMol : String → Option (List String)) (i : Nat) (r : Rxn)
    (st : VocabState) : VocabState :=
  match tokenizeRxn parseMol r with
  | none => { st with error_rsmi := st.error_rsmi ++ [(i, r.smile)] }
  | some rp =>
      { st with
        vocab_reactants := bumpAll st.vocab_reactants rp.1
        vocab_products := bumpAll st.vocab_products rp.2 }

/-- The `for i in range(len(self.rxns))` loop of `create_vocab`. -/
def create_vocab_loop (parseMol : String → Option (List String)) :
    Nat → List Rxn → VocabState → VocabState
  | _, [], st => st
  | i, r :: rs, st => create_vocab_loop parseMol (i + 1) rs (create_vocab_step parseMol i r st)

/-- dataset.py lines 81-84: the three reserved tokens occupying IDs 0-2. -/
def _START_VOCAB : List String := ["_PAD", "_GO", "_EOS"]

/-- dataset.py lines 131-135: `_START_VOCAB + sorted(vocab, key=vocab.get,
reverse=True)` — reserved tokens followed by the dict's keys stably sorted
by descending frequency. -/
def rankTokens (v : Vocab) : List String :=
  _START_VOCAB ++ sortDescBy (countOf v) (keys v)

/-- What `create_vocab` leaves behind on the dataset object: the two
frequency dicts and the two ranked token lists.  The local `error_rsmi`
dict is not part of it — the method returns `None` and discards it. -/
structure VocabResult where
  vocab_reactants : Vocab
  vocab_products : Vocab
  reactants_token_list : List String
  products_token_list : List String
deriving DecidableEq

/-- `RxnDataset.create_vocab` (dataset.py lines 80-135) starting from the
empty dicts set up by `__init__`. -/
def create_vocab (parseMol : String → Option (List String)) (rxns : List Rxn) :
    VocabResult :=
  let st := create_vocab_loop parseMol 0 rxns ⟨[], [], []⟩
  ⟨st.vocab_reactants, st.vocab_products,
    rankTokens st.vocab_reactants, rankTokens st.vocab_products⟩

/-- The reactant-side tokens of the successfully tokenized reactions, in
corpus order — the token stream that feeds `vocab_reactants`. -/
def observed_reactant_tokens (parseMol : String → Option (List String))
    (rxns : List Rxn) : List String :=
  (rxns.filterMap (fun r => (tokenizeRxn parseMol r).map Prod.fst)).flatten

/-- The product-side tokens of the successfully tokenized reactions. -/
def observed_product_tokens (parseMol : String → Option (List String))
    (rxns : List Rxn) : List String :=
  (rxns.filterMap (fun r => (tokenizeRxn parseMol r).map Prod.snd)).flatten

/-- First occurrences of the tokens of a stream, in stream order. -/
def firstSeen (ts : List String) : List String :=
  ts.foldl (fun ks t => if t ∈ ks then ks else ks ++ [t]) []

/-- dataset.py lines 190-192: one record of `tokenize_data`, mapping each
token to its index in the corresponding ranked token list; `list.index`
raises (hence `none`) when the token is absent, and any earlier tokenization
failure also fails the record. -/
def tokenize_example (parseMol : String → Option (List String))
    (rTokens pTokens : List String) (r : Rxn) :
    Option (List Nat × List Nat × String) := do
  let rp ← tokenizeRxn parseMol r
  let rIds ← rp.1.mapM (fun t => rTokens.findIdx? (fun s => s = t))
  let pIds ← rp.2.mapM (fun t => pTokens.findIdx? (fun s => s = t))
  some (rIds, pIds, r.smile)

/-- The state of the first loop of `tokenize_data` (lines 166-195): the
records already dumped to the training file and the local `error_rsmi`
mapping, which the method never returns. -/
structure TokenizeState where
  examples : List (List Nat × List Nat × String)
  error_rsmi : List (Nat × String)
deriving DecidableEq

/-- Body of the `for i, rxn in enumerate(self.rxns)` loop of
`tokenize_data`: a successful reaction appends its record to the emitted
stream, a failing one is recorded in `error_rsmi` and emits nothing. -/
def tokenize_data_step (parseMol : String → Option (List String))
    (rTokens pTokens : List String) (i : Nat) (r : Rxn)
    (st : TokenizeState) : TokenizeState :=
  match tokenize_example parseMol rTokens pTokens r with
  | none => { st with error_rsmi := st.error_rsmi ++ [(i, r.smile)] }
  | some ex => { st with examples := st.examples ++ [ex] }

/-- The first loop of `tokenize_data` over the corpus. -/
def tokenize_data_loop (parseMol : String → Option (List String))
    (rTokens pTokens : List String) :
    Nat → List Rxn → TokenizeState → TokenizeState
  | _, [], st => st
  | i, r :: rs, st =>
      tokenize_data_loop parseMol rTokens pTokens (i + 1) rs
        (tokenize_data_step parseMol rTokens pTokens i r st)

/- ### Shard splitting (dataset.py lines 214-231) -/

/-- The `while 1` read loop with counter `i` starting at the given value:
record `x` read at counter `i` goes to the training shard when `i % 100`
is non-zero and to the dev shard otherwise, preserving stream order. -/
def split_shards_loop {α : Type} (i : Nat) : List α → List α × List α
  | [] => ([], [])
  | x :: xs =>
      let rest := split_shards_loop (i + 1) xs
      if i % 100 = 0 then (rest.1, x :: rest.2) else (x :: rest.1, rest.2)

/-- dataset.py lines 214-229: split the serialized record stream, with the
counter `i` initialized to 1, into `(train, dev)` shards. -/
def split_shards {α : Type} (records : List α) : List α × List α :=
  split_shards_loop 1 records

/- ### Helper lemmas about stable descending sort -/

theorem sortDescBy_perm {α β : Type} [LinearOrder β] (key : α → β) (l : List α) :
    (sortDescBy key l).Perm l :=
  List.perm_insertionSort (descRel key) l

theorem sortDescBy_pairwise {α β : Type} [LinearOrder β] (key : α → β) (l : List α) :
    (sortDescBy key l).Pairwise (descRel key) :=
  List.sorted_insertionSort (descRel key) l

/-- In a descending-sorted list, an element whose key is outranked by at most
`k` elements (itself included) lies within the first `k` entries. -/
theorem mem_take_of_countP_le {α β : Type} [LinearOrder β] (key : α → β) :
    ∀ (s : List α) (k : Nat) (x : α), s.Pairwise (descRel key) → x ∈ s →
      s.countP (fun y => key x ≤ key y) ≤ k → x ∈ s.take k := by
  intro s
  induction s with
  | nil => intro k x _ hx; cases hx
  | cons a s ih =>
    intro k x hp hx hc
    have ha : ∀ b ∈ s, key b ≤ key a := (List.pairwise_cons.mp hp).1
    have hps : s.Pairwise (descRel key) := (List.pairwise_cons.mp hp).2
    rcases List.mem_cons.mp hx with rfl | hxs
    · have h1 : 1 ≤ (x :: s).countP (fun y => key x ≤ key y) := by
        have hcc : (x :: s).countP (fun y => key x ≤ key y)
            = s.countP (fun y => key x ≤ key y)
              + if (fun y => decide (key x ≤ key y)) x then 1 else 0 :=
          List.countP_cons _ _ _
        simp only [hcc, decide_eq_true_eq]
        simp [le_refl]
      match k with
      | 0 => omega
      | Nat.succ k =>
          rw [List.take_succ_cons]
          exact List.mem_cons_self x _
    · have hxa : key x ≤ key a := ha x hxs
      have hcc : (a :: s).countP (fun y => key x ≤ key y)
          = s.countP (fun y => key x ≤ key y) + 1 := by
        have := List.countP_cons (fun y => decide (key x ≤ key y)) a s
        simpa [hxa] using this
      match k with
      | 0 => omega
      | Nat.succ k =>
          have hc2 : s.countP (fun y => key x ≤ key y) ≤ k := by omega
          have := ih k x hps hxs hc2
          rw [List.take_succ_cons]
          exact List.mem_cons.mpr (Or.inr this)

/-- In a descending-sorted list, any element among the first `k` entries is
strictly outranked by fewer than `k` elements. -/
theorem countP_lt_of_mem_take {α β : Type} [LinearOrder β] (key : α → β) :
    ∀ (s : List α) (k : Nat) (x : α), s.Pairwise (descRel key) →
      x ∈ s.take k → s.countP (fun y => key x < key y) < k := by
  intro s
  induction s with
  | nil => intro k x _ hx; simp at hx
  | cons a s ih =>
    intro k x hp hx
    have ha : ∀ b ∈ s, key b ≤ key a := (List.pairwise_cons.mp hp).1
    have hps : s.Pairwise (descRel key) := (List.pairwise_cons.mp hp).2
    match k with
    | 0 => simp at hx
    | Nat.succ k =>
      rw [List.take_succ_cons] at hx
      rcases List.mem_cons.mp hx with rfl | hxt
      · have hz : s.countP (fun y => key x < key y) = 0 := by
          rw [List.countP_eq_zero]
          intro b hb
          simp only [decide_eq_true_eq]
          exact not_lt.mpr (ha b hb)
        have hcc : (x :: s).countP (fun y => key x < key y)
            = s.countP (fun y => key x < key y) := by
          have := List.countP_cons (fun y => decide (key x < key y)) x s
          simpa [lt_irrefl] using this
        omega
      · have hlt : s.countP (fun y => key x < key y) < k :=
          ih k x hps hxt
        have hcc : (a :: s).countP (fun y => key x < key y)
            ≤ s.countP (fun y => key x < key y) + 1 := by
          have := List.countP_cons (fun y => decide (key x < key y)) a s
          rw [this]
          split <;> omega
        omega

/- ### Shard-splitting lemmas and C9 -/

theorem split_shards_loop_spec {α : Type} :
    ∀ (l : List α) (i : Nat),
      split_shards_loop i l
        = ((l.enumFrom i).filterMap (fun p => if p.1 % 100 = 0 then none else some p.2),
           (l.enumFrom i).filterMap (fun p => if p.1 % 100 = 0 then some p.2 else none)) := by
  intro l
  induction l with
  | nil => intro i; rfl
  | cons x xs ih =>
    intro i
    simp only [split_shards_loop, List.enumFrom_cons, List.filterMap_cons, ih (i + 1)]
    by_cases h : i % 100 = 0 <;> simp [h]

theorem split_shards_loop_length {α : Type} :
    ∀ (l : List α) (i : Nat),
      (split_shards_loop i l).1.length + (split_shards_loop i l).2.length = l.length := by
  intro l
  induction l with
  | nil => intro i; rfl
  | cons x xs ih =>
    intro i
    have h2 := ih (i + 1)
    simp only [split_shards_loop]
    by_cases h : i % 100 = 0 <;> simp [h] <;> omega

theorem split_shards_loop_dev_length {α : Type} :
    ∀ (l : List α) (i : Nat),
      (split_shards_loop i l).2.length
        = (List.range l.length).countP (fun k => (k + i) % 100 = 0) := by
  intro l
  induction l with
  | nil => intro i; rfl
  | cons x xs ih =>
    intro i
    have hr : (List.range (xs.length + 1)).countP (fun k => (k + i) % 100 = 0)
        = (if i % 100 = 0 then 1 else 0)
          + (List.range xs.length).countP (fun k => (k + (i + 1)) % 100 = 0) := by
      rw [List.range_succ_eq_map, List.countP_cons, List.countP_map]
      have hcg : (List.range xs.length).countP
            ((fun k => decide ((k + i) % 100 = 0)) ∘ Nat.succ)
          = (List.range xs.length).countP (fun k => decide ((k + (i + 1)) % 100 = 0)) := by
        refine List.countP_congr ?_
        intro a _
        simp only [Function.comp]
        constructor <;> intro hx <;> simp only [decide_eq_true_eq] at * <;> omega
      rw [hcg]
      by_cases h : i % 100 = 0 <;> simp [h] <;> omega
    simp only [split_shards_loop, List.length_cons, hr]
    by_cases h : i % 100 = 0 <;> simp [h, ih (i + 1)] <;> omega

/-- C9: the stream is split by 1-based position — every record whose counter
is a multiple of 100 goes to the dev shard, all others to the training shard,
in order and with no duplication or loss; a 100-record stream yields a
1-record dev shard and a 99-record training shard. -/
theorem C9_shard_split {α : Type} (l : List α) :
    (split_shards l).1
        = (l.enumFrom 1).filterMap (fun p => if p.1 % 100 = 0 then none else some p.2)
      ∧ (split_shards l).2
        = (l.enumFrom 1).filterMap (fun p => if p.1 % 100 = 0 then some p.2 else none)
      ∧ (split_shards l).1.length + (split_shards l).2.length = l.length
      ∧ (l.length = 100 →
          (split_shards l).2.length = 1 ∧ (split_shards l).1.length = 99) := by
  refine ⟨?_, ?_, split_shards_loop_length l 1, ?_⟩
  · have h := split_shards_loop_spec l 1
    exact congrArg Prod.fst h
  · have h := split_shards_loop_spec l 1
    exact congrArg Prod.snd h
  · intro h100
    have hd := split_shards_loop_dev_length l 1
    rw [h100] at hd
    have hc : (List.range 100).countP (fun k => (k + 1) % 100 = 0) = 1 := by decide
    have hlen := split_shards_loop_length l 1
    rw [h100] at hlen
    constructor
    · rw [split_shards, hd, hc]
    · have h2 : (split_shards l).2.length = 1 := by rw [split_shards, hd, hc]
      have h12 : (split_shards l).1.length + (split_shards l).2.length = 100 := by
        rw [split_shards]
        exact hlen
      omega

theorem C9_witness :
    (split_shards (List.range 100)).2.length = 1
      ∧ (split_shards (List.range 100)).1.length = 99 :=
  (C9_shard_split (List.range 100)).2.2.2 (by simp)

/- ### C10: vacuous accuracy for examples without positive labels -/

/-- C10: an example with no atom pair labelled 1 is counted correct for both
accuracy at 10 and accuracy at 20 — the all-positives-captured check is
vacuously true. -/
theorem C10_vacuous_accuracy (n : Nat) (score label : Nat → ℚ)
    (h : ∀ p, p < n → label p ≠ 1) :
    allCorrect10 n score label = true ∧ allCorrect20 n score label = true := by
  have hm : molLabels n label = [] := by
    rw [molLabels, List.filter_eq_nil_iff]
    intro p hp
    simp only [decide_eq_true_eq]
    exact h p (List.mem_range.mp hp)
  constructor <;> simp [allCorrect10, allCorrect20, hm]

theorem C10_witness :
    allCorrect10 20 (fun q => (q : ℚ)) (fun _ => (0 : ℚ)) = true
      ∧ allCorrect20 20 (fun q => (q : ℚ)) (fun _ => (0 : ℚ)) = true :=
  C10_vacuous_accuracy 20 (fun q => (q : ℚ)) (fun _ => (0 : ℚ))
    (fun _ _ => by norm_num)

/- ### Learning-rate dynamics (C4) and evaluation frame (C5) -/

theorem iterateLoop_lrs (lr0 : ℚ) (optStep : List ℚ × List ℚ → List ℚ × List ℚ)
    (train : Bool) :
    ∀ (m : Nat) (st : TrainerState),
      (iterateLoop lr0 optStep train (m + 1) st).lrs
        = st.lrs.map (fun _ => lr0 * (9 / 10)) := by
  intro m
  induction m with
  | zero => intro st; rfl
  | succ m2 ih =>
    intro st
    have hstep : iterateLoop lr0 optStep train (m2 + 1 + 1) st
        = iterateLoop lr0 optStep train (m2 + 1) (iterateBatch lr0 optStep train st) := rfl
    rw [hstep, ih]
    simp [iterateBatch, List.map_map, Function.comp]

theorem iterateLoop_eval_frame (lr0 : ℚ) (optStep : List ℚ × List ℚ → List ℚ × List ℚ) :
    ∀ (n : Nat) (st : TrainerState),
      (iterateLoop lr0 optStep false n st).params = st.params
        ∧ (iterateLoop lr0 optStep false n st).moments = st.moments := by
  intro n
  induction n with
  | zero => intro st; exact ⟨rfl, rfl⟩
  | succ m ih =>
    intro st
    have h := ih (iterateBatch lr0 optStep false st)
    have hp : (iterateBatch lr0 optStep false st).params = st.params := rfl
    have hm : (iterateBatch lr0 optStep false st).moments = st.moments := rfl
    have hstep : iterateLoop lr0 optStep false (m + 1) st
        = iterateLoop lr0 optStep false m (iterateBatch lr0 optStep false st) := rfl
    rw [hstep]
    exact ⟨h.1.trans hp, h.2.trans hm⟩

/-- C4 counterexample: after two training steps the code's learning rate is
`0.9 * lr0` — the assignment `param_group['lr'] = self.lr * 0.9` overwrites
with a constant instead of compounding, so the claimed value
`0.9 ^ 2 * lr0` is wrong; moreover the assignment also runs in evaluation
mode. -/
theorem C4_counterexample :
    (iterateLoop 1 (fun pm => pm) true 2 ⟨[0], [0], [1]⟩).lrs = [(9 : ℚ) / 10]
      ∧ (iterateLoop 1 (fun pm => pm) true 2 ⟨[0], [0], [1]⟩).lrs
          ≠ [((9 : ℚ) / 10) ^ 2 * 1]
      ∧ (iterateLoop 1 (fun pm => pm) false 1 ⟨[0], [0], [1]⟩).lrs ≠ [(1 : ℚ)] := by
  have h1 : (iterateLoop 1 (fun pm => pm) true 2 ⟨[0], [0], [1]⟩).lrs = [(9 : ℚ) / 10] := by
    with_unfolding_all rfl
  have h2 : (iterateLoop 1 (fun pm => pm) false 1 ⟨[0], [0], [1]⟩).lrs = [(9 : ℚ) / 10] := by
    with_unfolding_all rfl
  refine ⟨h1, ?_, ?_⟩
  · rw [h1]
    intro h
    have hv := (List.cons_eq_cons.mp h).1
    norm_num at hv
  · rw [h2]
    intro h
    have hv := (List.cons_eq_cons.mp h).1
    norm_num at hv

/-- C4 amended: after every batch — in training and in evaluation mode
alike — the learning rate of every parameter group is set to `0.9` times the
configured initial rate `lr0`; hence after `n ≥ 1` batches it equals
`0.9 * lr0`, not `0.9 ^ n * lr0`. -/
theorem C4_amended (lr0 : ℚ) (optStep : List ℚ × List ℚ → List ℚ × List ℚ)
    (train : Bool) (n : Nat) (st : TrainerState) (h : 1 ≤ n) :
    (iterateLoop lr0 optStep train n st).lrs = st.lrs.map (fun _ => lr0 * (9 / 10)) := by
  match n, h with
  | Nat.succ m, _ => exact iterateLoop_lrs lr0 optStep train m st

theorem C4_witness :
    (iterateLoop 1 (fun pm => pm) true 1 ⟨[0], [0], [1]⟩).lrs
      = [(1 : ℚ)].map (fun _ => (1 : ℚ) * (9 / 10)) :=
  C4_amended 1 (fun pm => pm) true 1 ⟨[0], [0], [1]⟩ (by decide)

/-- C5 counterexample: one evaluation batch changes the trainer state — the
learning-rate assignment at lines 142-144 is not guarded by `if train`, so a
test epoch rewrites every group's learning rate to `0.9 * lr0`. -/
theorem C5_counterexample :
    iterateLoop 1 (fun pm => pm) false 1 ⟨[5], [7], [1]⟩
      ≠ (⟨[5], [7], [1]⟩ : TrainerState) := by
  intro h
  have hl := congrArg TrainerState.lrs h
  have h1 : (iterateLoop 1 (fun pm => pm) false 1 ⟨[5], [7], [1]⟩).lrs = [(9 : ℚ) / 10] := by
    with_unfolding_all rfl
  have hr : (⟨[5], [7], [1]⟩ : TrainerState).lrs = [(1 : ℚ)] := rfl
  rw [h1, hr] at hl
  have hv := (List.cons_eq_cons.mp hl).1
  norm_num at hv

/-- C5 amended: an evaluation epoch leaves the model parameters and the
optimizer moment buffers unchanged, but after at least one batch it sets
every parameter group's learning rate to `0.9` times the configured initial
rate. -/
theorem C5_amended (lr0 : ℚ) (optStep : List ℚ × List ℚ → List ℚ × List ℚ)
    (n : Nat) (st : TrainerState) :
    (iterateLoop lr0 optStep false n st).params = st.params
      ∧ (iterateLoop lr0 optStep false n st).moments = st.moments
      ∧ (1 ≤ n → (iterateLoop lr0 optStep false n st).lrs
            = st.lrs.map (fun _ => lr0 * (9 / 10))) := by
  refine ⟨(iterateLoop_eval_frame lr0 optStep n st).1,
    (iterateLoop_eval_frame lr0 optStep n st).2, ?_⟩
  intro h
  match n, h with
  | Nat.succ m, _ => exact iterateLoop_lrs lr0 optStep false m st

theorem C5_witness :
    (iterateLoop 1 (fun pm => pm) false 1 ⟨[5], [7], [1]⟩).params = [5]
      ∧ (iterateLoop 1 (fun pm => pm) false 1 ⟨[5], [7], [1]⟩).moments = [7]
      ∧ (iterateLoop 1 (fun pm => pm) false 1 ⟨[5], [7], [1]⟩).lrs
          = [(1 : ℚ)].map (fun _ => (1 : ℚ) * (9 / 10)) :=
  ⟨(C5_amended 1 (fun pm => pm) 1 ⟨[5], [7], [1]⟩).1,
   (C5_amended 1 (fun pm => pm) 1 ⟨[5], [7], [1]⟩).2.1,
   (C5_amended 1 (fun pm => pm) 1 ⟨[5], [7], [1]⟩).2.2 (by decide)⟩

/- ### Loss aggregation (C1) -/

/-- C1 counterexample: with scores `[0, 0]` and labels `[1, -1]` the code's
loss is `log 2 / 2` — `torch.mean` divides the masked sum by the total
element count 2 — while the claimed average over the non-masked elements
would be `log 2 / 1`. -/
theorem C1_counterexample :
    iterateLoss 2 (fun _ => (0 : ℝ)) (fun q => if q = 0 then (1 : ℝ) else -1)
      ≠ claimedLoss 2 (fun _ => (0 : ℝ)) (fun q => if q = 0 then (1 : ℝ) else -1) := by
  have hlog : Real.log 2 ≠ 0 := ne_of_gt (Real.log_pos one_lt_two)
  have hb1 : bce_with_logits 0 1 = Real.log 2 := by
    rw [bce_with_logits]
    norm_num [Real.exp_zero]
  have hr1 : relu 1 = 1 := by
    rw [relu]; exact max_eq_left (by norm_num)
  have hsum : (∑ q ∈ Finset.range 2,
      bce_with_logits ((fun _ => (0 : ℝ)) q)
          (relu ((fun q => if q = 0 then (1 : ℝ) else -1) q))
        * (if (fun q => if q = 0 then (1 : ℝ) else -1) q = -1 then (0 : ℝ) else 1))
      = Real.log 2 := by
    rw [Finset.sum_range_succ, Finset.sum_range_succ, Finset.sum_range_zero]
    norm_num [hb1, hr1]
  have hcard : ((Finset.range 2).filter
      (fun q => (fun q => if q = 0 then (1 : ℝ) else -1) q ≠ -1)).card = 1 := by
    rw [show (2 : Nat) = 1 + 1 from rfl, Finset.range_succ, Finset.filter_insert]
    norm_num [Finset.range_one, Finset.filter_singleton]
  rw [iterateLoss, claimedLoss, hsum, hcard]
  intro h
  rw [Nat.cast_one, div_one, Nat.cast_ofNat] at h
  have : Real.log 2 = 0 := by linarith
  exact hlog this

/-- C1 amended: the loss is the elementwise BCE-with-logits against the
clamped labels, zeroed at every position whose original label is `-1`, then
averaged over the total number of elements (not just the non-masked ones);
a batch whose labels are all `-1` therefore yields loss 0 with a non-zero
divisor. -/
theorem C1_amended (n : Nat) (score label : Nat → ℝ) :
    iterateLoss n score label
        = (∑ q ∈ Finset.range n,
            if label q = -1 then (0 : ℝ)
            else bce_with_logits (score q) (relu (label q))) / (n : ℝ)
      ∧ ((∀ q, q < n → label q = -1) → iterateLoss n score label = 0) := by
  constructor
  · rw [iterateLoss]
    congr 1
    refine Finset.sum_congr rfl ?_
    intro q _
    by_cases h : label q = -1 <;> simp [h]
  · intro h
    rw [iterateLoss]
    have hz : ∀ q ∈ Finset.range n,
        bce_with_logits (score q) (relu (label q))
          * (if label q = -1 then (0 : ℝ) else 1) = 0 := by
      intro q hq
      simp [h q (Finset.mem_range.mp hq)]
    rw [Finset.sum_congr rfl hz, Finset.sum_const_zero, zero_div]

theorem C1_witness :
    iterateLoss 2 (fun _ => (0 : ℝ)) (fun _ => (-1 : ℝ)) = 0 :=
  (C1_amended 2 (fun _ => (0 : ℝ)) (fun _ => (-1 : ℝ))).2 (fun _ _ => rfl)

/- ### Top-k masking (C2) and accuracy (C3) -/

theorem sortDescBy_const {α β : Type} [LinearOrder β] (c : β) (l : List α) :
    sortDescBy (fun _ => c) l = l := by
  apply List.Sorted.insertionSort_eq
  induction l with
  | nil => exact List.Pairwise.nil
  | cons x xs ih => exact List.Pairwise.cons (fun b _ => le_refl c) ih

/-- C2 counterexample: in a batch whose 20 atom-pair positions all carry the
label `-1`, `torch.topk(..., 20)` still returns 20 indices, so position 0 —
whose label is `-1` — appears among the top-20 indices returned by the
forward pass, refuting the claim that a `-1` position can never appear. -/
theorem C2_counterexample :
    ((fun _ => (-1 : ℚ)) 0 = -1)
      ∧ 0 ∈ forwardTopK 20 (fun _ => (0 : ℚ)) (fun _ => (-1 : ℚ)) := by
  refine ⟨rfl, ?_⟩
  have hms : maskedScore (fun _ => (0 : ℚ)) (fun _ => (-1 : ℚ))
      = fun _ => (0 : ℚ) - 10000 := funext fun q => if_pos rfl
  rw [forwardTopK, topkIdx, hms, sortDescBy_const]
  have ht : (List.range 20).take 20 = List.range 20 :=
    List.take_of_length_le (by simp)
  rw [ht]
  simp

/-- C2 amended: the forward pass reduces by 10000 the score of every
position labelled `-1` and leaves other scores unchanged before top-k
selection; this keeps `-1` positions out of the top-20 only under the
conditions that at least 20 positions carry a label other than `-1` and all
pairwise raw-score gaps are below 10000 — otherwise (as the counterexample
shows) a `-1` position can still be returned. -/
theorem C2_amended (n : Nat) (score label : Nat → ℚ) :
    (∀ q, label q = -1 → maskedScore score label q = score q - 10000)
      ∧ (∀ q, label q ≠ -1 → maskedScore score label q = score q)
      ∧ (20 ≤ (List.range n).countP (fun p => label p ≠ -1) →
          (∀ p q, p < n → q < n → score p - score q < 10000) →
          ∀ q, q < n → label q = -1 → q ∉ forwardTopK n score label) := by
  refine ⟨fun q hq => by rw [maskedScore, if_pos hq],
          fun q hq => by rw [maskedScore, if_neg hq], ?_⟩
  intro hcount hband q hqn hq hmem
  rw [forwardTopK, topkIdx] at hmem
  have hpw := sortDescBy_pairwise (maskedScore score label) (List.range n)
  have hlt := countP_lt_of_mem_take (maskedScore score label)
      (sortDescBy (maskedScore score label) (List.range n)) 20 q hpw hmem
  rw [(sortDescBy_perm (maskedScore score label) (List.range n)).countP_eq] at hlt
  have hmono : (List.range n).countP (fun p => label p ≠ -1)
      ≤ (List.range n).countP
          (fun y => maskedScore score label q < maskedScore score label y) := by
    refine List.countP_mono_left ?_
    intro y hy hylab
    simp only [decide_eq_true_eq] at hylab ⊢
    have hyn : y < n := List.mem_range.mp hy
    have h1 : maskedScore score label q = score q - 10000 := by
      rw [maskedScore, if_pos hq]
    have h2 : maskedScore score label y = score y := by
      rw [maskedScore, if_neg hylab]
    rw [h1, h2]
    have hb := hband q y hqn hyn
    linarith
  omega

theorem C2_witness :
    20 ∉ forwardTopK 21 (fun _ => (0 : ℚ)) (fun q => if q < 20 then (0 : ℚ) else -1) :=
  (C2_amended 21 (fun _ => (0 : ℚ)) (fun q => if q < 20 then (0 : ℚ) else -1)).2.2
    (by decide)
    (fun p q _ _ => by rw [sub_self]; decide)
    20 (by decide) (by decide)

/-- C3: an example is counted correct for accuracy at 10 (resp. 20) exactly
when every atom-pair position labelled 1 occurs among its top-10 (resp.
top-20) predicted indices; and when the positive pairs outscore every other
position (with at most 20 of them), the example's accuracy-at-20 check
passes regardless of the other scores. -/
theorem C3_accuracy (n : Nat) (score label : Nat → ℚ) :
    (allCorrect10 n score label = true
        ↔ ∀ p, p < n → label p = 1 → p ∈ (forwardTopK n score label).take 10)
      ∧ (allCorrect20 n score label = true
        ↔ ∀ p, p < n → label p = 1 → p ∈ forwardTopK n score label)
      ∧ ((List.range n).countP (fun p => label p = 1) ≤ 20 →
          (∀ p, p < n → label p = 1 → ∀ q, q < n → label q ≠ 1 → score q < score p) →
          allCorrect20 n score label = true) := by
  have h10 : allCorrect10 n score label = true
      ↔ ∀ p, p < n → label p = 1 → p ∈ (forwardTopK n score label).take 10 := by
    rw [allCorrect10, List.all_eq_true]
    constructor
    · intro h p hp hl
      have hp2 : p ∈ molLabels n label := by
        rw [molLabels, List.mem_filter]
        exact ⟨List.mem_range.mpr hp, by simp [hl]⟩
      have hc := h p hp2
      simpa using hc
    · intro h p hp
      rw [molLabels, List.mem_filter, List.mem_range] at hp
      have := h p hp.1 (by simpa using hp.2)
      simpa using this
  have h20 : allCorrect20 n score label = true
      ↔ ∀ p, p < n → label p = 1 → p ∈ forwardTopK n score label := by
    rw [allCorrect20, List.all_eq_true]
    constructor
    · intro h p hp hl
      have hp2 : p ∈ molLabels n label := by
        rw [molLabels, List.mem_filter]
        exact ⟨List.mem_range.mpr hp, by simp [hl]⟩
      have hc := h p hp2
      simpa using hc
    · intro h p hp
      rw [molLabels, List.mem_filter, List.mem_range] at hp
      have := h p hp.1 (by simpa using hp.2)
      simpa using this
  refine ⟨h10, h20, ?_⟩
  intro hcnt hsep
  rw [h20]
  intro p hp hl
  rw [forwardTopK, topkIdx]
  refine mem_take_of_countP_le (maskedScore score label) _ 20 p
    (sortDescBy_pairwise _ _)
    ((sortDescBy_perm _ _).mem_iff.mpr (List.mem_range.mpr hp)) ?_
  rw [(sortDescBy_perm (maskedScore score label) (List.range n)).countP_eq]
  refine le_trans (List.countP_mono_left ?_) hcnt
  intro y hy hge
  simp only [decide_eq_true_eq] at hge ⊢
  by_contra hyl
  have hyn : y < n := List.mem_range.mp hy
  have h1 : maskedScore score label p = score p := by
    rw [maskedScore, if_neg (by rw [hl]; norm_num)]
  have h2 : maskedScore score label y ≤ score y := by
    rw [maskedScore]
    split
    · linarith
    · exact le_refl _
  have hs := hsep p hp hl y hyn hyl
  rw [h1] at hge
  linarith

theorem C3_witness :
    allCorrect20 20 (fun q => if q = 0 then (1 : ℚ) else 0)
      (fun q => if q = 0 then (1 : ℚ) else 0) = true :=
  (C3_accuracy 20 (fun q => if q = 0 then (1 : ℚ) else 0)
      (fun q => if q = 0 then (1 : ℚ) else 0)).2.2
    (by decide) (by decide)

/- ### Vocabulary lemmas (C6, C7, C8) -/

theorem bumpAll_append (v : Vocab) (a b : List String) :
    bumpAll v (a ++ b) = bumpAll (bumpAll v a) b :=
  List.foldl_append bump v a b

theorem keys_bump (v : Vocab) (t : String) :
    keys (bump v t) = if t ∈ keys v then keys v else keys v ++ [t] := by
  induction v with
  | nil => simp [bump, keys]
  | cons hd tl ih =>
    obtain ⟨s, c⟩ := hd
    by_cases h : s = t
    · subst h
      simp [bump, keys]
    · have h2 : ¬ t = s := fun hh => h hh.symm
      simp only [bump, if_neg h, keys, List.map_cons]
      rw [show keys (bump tl t) = List.map Prod.fst (bump tl t) from rfl] at ih
      rw [ih]
      by_cases hm : t ∈ List.map Prod.fst tl
      · simp [keys, List.mem_cons, h2, hm]
      · simp [keys, List.mem_cons, h2, hm]

theorem keys_bumpAll (ts : List String) : ∀ (v : Vocab),
    keys (bumpAll v ts)
      = ts.foldl (fun ks t => if t ∈ ks then ks else ks ++ [t]) (keys v) := by
  induction ts with
  | nil => intro v; rfl
  | cons t ts ih =>
    intro v
    simp only [bumpAll, List.foldl_cons]
    have hstep : List.foldl bump (bump v t) ts = bumpAll (bump v t) ts := rfl
    rw [hstep, ih (bump v t)]
    congr 1
    exact keys_bump v t

theorem nodup_foldl_ins (ts : List String) : ∀ ks : List String, ks.Nodup →
    (ts.foldl (fun ks t => if t ∈ ks then ks else ks ++ [t]) ks).Nodup := by
  induction ts with
  | nil => intro ks h; exact h
  | cons t ts ih =>
    intro ks h
    simp only [List.foldl_cons]
    apply ih
    by_cases hm : t ∈ ks
    · simpa [hm] using h
    · rw [if_neg hm]
      simp [List.nodup_append, h, hm]

theorem toFinset_foldl_ins (ts : List String) : ∀ ks : List String,
    (ts.foldl (fun ks t => if t ∈ ks then ks else ks ++ [t]) ks).toFinset
      = ks.toFinset ∪ ts.toFinset := by
  induction ts with
  | nil => intro ks; simp
  | cons t ts ih =>
    intro ks
    simp only [List.foldl_cons]
    rw [ih]
    have h2 : (if t ∈ ks then ks else ks ++ [t]).toFinset = insert t ks.toFinset := by
      by_cases hm : t ∈ ks
      · rw [if_pos hm]
        exact (Finset.insert_eq_self.mpr (List.mem_toFinset.mpr hm)).symm
      · rw [if_neg hm]
        ext x
        simp [List.mem_toFinset, List.mem_append, or_comm]
    rw [h2]
    ext x
    simp only [Finset.mem_union, Finset.mem_insert, List.mem_toFinset, List.mem_cons]
    tauto

theorem create_vocab_loop_vocabs (pm : String → Option (List String)) :
    ∀ (rxns : List Rxn) (i : Nat) (st : VocabState),
      (create_vocab_loop pm i rxns st).vocab_reactants
          = bumpAll st.vocab_reactants (observed_reactant_tokens pm rxns)
        ∧ (create_vocab_loop pm i rxns st).vocab_products
          = bumpAll st.vocab_products (observed_product_tokens pm rxns) := by
  intro rxns
  induction rxns with
  | nil => intro i st; exact ⟨rfl, rfl⟩
  | cons r rs ih =>
    intro i st
    have hloop : create_vocab_loop pm i (r :: rs) st
        = create_vocab_loop pm (i + 1) rs (create_vocab_step pm i r st) := rfl
    cases hr : tokenizeRxn pm r with
    | none =>
      have hobsR : observed_reactant_tokens pm (r :: rs) = observed_reactant_tokens pm rs := by
        simp [observed_reactant_tokens, List.filterMap_cons, hr]
      have hobsP : observed_product_tokens pm (r :: rs) = observed_product_tokens pm rs := by
        simp [observed_product_tokens, List.filterMap_cons, hr]
      have hstR : (create_vocab_step pm i r st).vocab_reactants = st.vocab_reactants := by
        simp [create_vocab_step, hr]
      have hstP : (create_vocab_step pm i r st).vocab_products = st.vocab_products := by
        simp [create_vocab_step, hr]
      rw [hloop, hobsR, hobsP]
      constructor
      · rw [(ih (i + 1) (create_vocab_step pm i r st)).1, hstR]
      · rw [(ih (i + 1) (create_vocab_step pm i r st)).2, hstP]
    | some rp =>
      have hobsR : observed_reactant_tokens pm (r :: rs)
          = rp.1 ++ observed_reactant_tokens pm rs := by
        simp [observed_reactant_tokens, List.filterMap_cons, hr]
      have hobsP : observed_product_tokens pm (r :: rs)
          = rp.2 ++ observed_product_tokens pm rs := by
        simp [observed_product_tokens, List.filterMap_cons, hr]
      have hstR : (create_vocab_step pm i r st).vocab_reactants
          = bumpAll st.vocab_reactants rp.1 := by
        simp [create_vocab_step, hr]
      have hstP : (create_vocab_step pm i r st).vocab_products
          = bumpAll st.vocab_products rp.2 := by
        simp [create_vocab_step, hr]
      rw [hloop, hobsR, hobsP, bumpAll_append, bumpAll_append]
      constructor
      · rw [(ih (i + 1) (create_vocab_step pm i r st)).1, hstR]
      · rw [(ih (i + 1) (create_vocab_step pm i r st)).2, hstP]

theorem create_vocab_loop_append (pm : String → Option (List String)) :
    ∀ (as bs : List Rxn) (i : Nat) (st : VocabState),
      create_vocab_loop pm i (as ++ bs) st
        = create_vocab_loop pm (i + as.length) bs (create_vocab_loop pm i as st) := by
  intro as
  induction as with
  | nil => intro bs i st; rfl
  | cons a as ih =>
    intro bs i st
    have h1 : create_vocab_loop pm i ((a :: as) ++ bs) st
        = create_vocab_loop pm (i + 1) (as ++ bs) (create_vocab_step pm i a st) := rfl
    rw [h1, ih]
    have h2 : i + 1 + as.length = i + (a :: as).length := by
      simp [List.length_cons]
      omega
    rw [h2]
    rfl

theorem rankTokens_spec (v : Vocab) (obs : List String)
    (hkeys : keys v = obs.foldl (fun ks t => if t ∈ ks then ks else ks ++ [t]) []) :
    (rankTokens v).length = 3 + obs.toFinset.card
      ∧ (rankTokens v).take 3 = ["_PAD", "_GO", "_EOS"]
      ∧ ((rankTokens v).drop 3).Nodup
      ∧ ((rankTokens v).drop 3).toFinset = obs.toFinset
      ∧ ((rankTokens v).drop 3).Pairwise (fun a b => countOf v b ≤ countOf v a) := by
  have hnd : (keys v).Nodup := by
    rw [hkeys]
    exact nodup_foldl_ins obs [] List.nodup_nil
  have htf : (keys v).toFinset = obs.toFinset := by
    rw [hkeys, toFinset_foldl_ins]
    simp
  have hdrop : (rankTokens v).drop 3 = sortDescBy (countOf v) (keys v) := rfl
  have hperm := sortDescBy_perm (countOf v) (keys v)
  refine ⟨?_, rfl, ?_, ?_, ?_⟩
  · rw [rankTokens, List.length_append, hperm.length_eq,
      ← htf, List.toFinset_card_of_nodup hnd]
    rfl
  · rw [hdrop]
    exact (hperm.nodup_iff).mpr hnd
  · rw [hdrop, List.toFinset_eq_of_perm _ _ hperm, htf]
  · rw [hdrop]
    exact sortDescBy_pairwise (countOf v) (keys v)

/-- C7: after vocabulary building, each token list is the three reserved
tokens pad, go, end-of-sequence (in that order) followed by all distinct
observed tokens of that side — without duplicates and in descending
frequency order — so its length is 3 plus the number of distinct observed
tokens. -/
theorem C7_vocab_structure (pm : String → Option (List String)) (rxns : List Rxn) :
    ((create_vocab pm rxns).reactants_token_list.length
        = 3 + (observed_reactant_tokens pm rxns).toFinset.card)
      ∧ (create_vocab pm rxns).reactants_token_list.take 3 = ["_PAD", "_GO", "_EOS"]
      ∧ ((create_vocab pm rxns).reactants_token_list.drop 3).Nodup
      ∧ ((create_vocab pm rxns).reactants_token_list.drop 3).toFinset
          = (observed_reactant_tokens pm rxns).toFinset
      ∧ ((create_vocab pm rxns).reactants_token_list.drop 3).Pairwise
          (fun a b => countOf (create_vocab pm rxns).vocab_reactants b
              ≤ countOf (create_vocab pm rxns).vocab_reactants a)
      ∧ ((create_vocab pm rxns).products_token_list.length
          = 3 + (observed_product_tokens pm rxns).toFinset.card)
      ∧ (create_vocab pm rxns).products_token_list.take 3 = ["_PAD", "_GO", "_EOS"]
      ∧ ((create_vocab pm rxns).products_token_list.drop 3).Nodup
      ∧ ((create_vocab pm rxns).products_token_list.drop 3).toFinset
          = (observed_product_tokens pm rxns).toFinset
      ∧ ((create_vocab pm rxns).products_token_list.drop 3).Pairwise
          (fun a b => countOf (create_vocab pm rxns).vocab_products b
              ≤ countOf (create_vocab pm rxns).vocab_products a) := by
  have h1 : (create_vocab pm rxns).vocab_reactants
      = bumpAll [] (observed_reactant_tokens pm rxns) :=
    (create_vocab_loop_vocabs pm rxns 0 ⟨[], [], []⟩).1
  have h2 : (create_vocab pm rxns).vocab_products
      = bumpAll [] (observed_product_tokens pm rxns) :=
    (create_vocab_loop_vocabs pm rxns 0 ⟨[], [], []⟩).2
  have hkR : keys (create_vocab pm rxns).vocab_reactants
      = (observed_reactant_tokens pm rxns).foldl
          (fun ks t => if t ∈ ks then ks else ks ++ [t]) [] := by
    rw [h1, keys_bumpAll]
    rfl
  have hkP : keys (create_vocab pm rxns).vocab_products
      = (observed_product_tokens pm rxns).foldl
          (fun ks t => if t ∈ ks then ks else ks ++ [t]) [] := by
    rw [h2, keys_bumpAll]
    rfl
  have hsR := rankTokens_spec (create_vocab pm rxns).vocab_reactants
    (observed_reactant_tokens pm rxns) hkR
  have hsP := rankTokens_spec (create_vocab pm rxns).vocab_products
    (observed_product_tokens pm rxns) hkP
  exact ⟨hsR.1, hsR.2.1, hsR.2.2.1, hsR.2.2.2.1, hsR.2.2.2.2,
    hsP.1, hsP.2.1, hsP.2.2.1, hsP.2.2.2.1, hsP.2.2.2.2⟩

/-- C8: vocabulary building is a pure function of the corpus, the keys of
each frequency mapping list the observed tokens in first-seen order, and the
ranked token lists are stable — two tokens of equal frequency appear in
first-seen order. -/
theorem C8_determinism_stability (pm : String → Option (List String))
    (rxns : List Rxn) (s t : String) :
    create_vocab pm rxns = create_vocab pm rxns
      ∧ keys (create_vocab pm rxns).vocab_reactants
          = firstSeen (observed_reactant_tokens pm rxns)
      ∧ keys (create_vocab pm rxns).vocab_products
          = firstSeen (observed_product_tokens pm rxns)
      ∧ (countOf (create_vocab pm rxns).vocab_reactants s
            = countOf (create_vocab pm rxns).vocab_reactants t →
          List.Sublist [s, t] (keys (create_vocab pm rxns).vocab_reactants) →
          List.Sublist [s, t] ((create_vocab pm rxns).reactants_token_list))
      ∧ (countOf (create_vocab pm rxns).vocab_products s
            = countOf (create_vocab pm rxns).vocab_products t →
          List.Sublist [s, t] (keys (create_vocab pm rxns).vocab_products) →
          List.Sublist [s, t] ((create_vocab pm rxns).products_token_list)) := by
  have h1 : (create_vocab pm rxns).vocab_reactants
      = bumpAll [] (observed_reactant_tokens pm rxns) :=
    (create_vocab_loop_vocabs pm rxns 0 ⟨[], [], []⟩).1
  have h2 : (create_vocab pm rxns).vocab_products
      = bumpAll [] (observed_product_tokens pm rxns) :=
    (create_vocab_loop_vocabs pm rxns 0 ⟨[], [], []⟩).2
  refine ⟨rfl, ?_, ?_, ?_, ?_⟩
  · rw [h1, keys_bumpAll]
    rfl
  · rw [h2, keys_bumpAll]
    rfl
  · intro hc hsub
    have hab : descRel (countOf (create_vocab pm rxns).vocab_reactants) s t :=
      le_of_eq hc.symm
    have hs : List.Sublist [s, t] (sortDescBy (countOf (create_vocab pm rxns).vocab_reactants)
        (keys (create_vocab pm rxns).vocab_reactants)) :=
      List.pair_sublist_insertionSort hab hsub
    exact hs.trans (List.sublist_append_right _START_VOCAB _)
  · intro hc hsub
    have hab : descRel (countOf (create_vocab pm rxns).vocab_products) s t :=
      le_of_eq hc.symm
    have hs : List.Sublist [s, t] (sortDescBy (countOf (create_vocab pm rxns).vocab_products)
        (keys (create_vocab pm rxns).vocab_products)) :=
      List.pair_sublist_insertionSort hab hsub
    exact hs.trans (List.sublist_append_right _START_VOCAB _)

theorem C8_witness :
    List.Sublist [("A" : String), "B"]
      ((create_vocab (fun s => some [s])
            [⟨"A.B>R>P", ["A", "B"], ["R"], ["P"]⟩]).reactants_token_list) :=
  (C8_determinism_stability (fun s => some [s])
      [⟨"A.B>R>P", ["A", "B"], ["R"], ["P"]⟩] "A" "B").2.2.2.1
    (by decide) (by decide)

/-- C6 counterexample: two one-reaction corpora whose (different) reactions
both fail tokenization produce identical `create_vocab` results — the method
returns `None` and stores only the vocabularies and token lists on the
dataset, so neither the count nor the mapping of failures reaches the
caller, even though the internal scan state records them differently. -/
theorem C6_counterexample :
    create_vocab (fun s => if s = "C" then some ["C"] else none)
        [⟨"X>>C", ["X"], ["C"], ["C"]⟩]
      = create_vocab (fun s => if s = "C" then some ["C"] else none)
          [⟨"Y>>C", ["Y"], ["C"], ["C"]⟩]
      ∧ (create_vocab_loop (fun s => if s = "C" then some ["C"] else none) 0
            [⟨"X>>C", ["X"], ["C"], ["C"]⟩] ⟨[], [], []⟩).error_rsmi
        ≠ (create_vocab_loop (fun s => if s = "C" then some ["C"] else none) 0
            [⟨"Y>>C", ["Y"], ["C"], ["C"]⟩] ⟨[], [], []⟩).error_rsmi := by
  constructor
  · decide
  · decide

/-- C6 amended: a reaction whose tokenization fails is recorded in the local
`error_rsmi` mapping under its index, is excluded from both vocabularies'
frequency counts and from the emitted example records, and the scan
continues with the remaining reactions; however the mapping and its count
stay local to the method and are not reported to the caller. -/
theorem C6_amended (pm : String → Option (List String))
    (rTokens pTokens : List String) (i : Nat) (r : Rxn)
    (st : VocabState) (ts : TokenizeState) (rs : List Rxn)
    (h : tokenizeRxn pm r = none) :
    create_vocab_step pm i r st
        = { st with error_rsmi := st.error_rsmi ++ [(i, r.smile)] }
      ∧ tokenize_data_step pm rTokens pTokens i r ts
        = { ts with error_rsmi := ts.error_rsmi ++ [(i, r.smile)] }
      ∧ create_vocab_loop pm i (r :: rs) st
        = create_vocab_loop pm (i + 1) rs
            { st with error_rsmi := st.error_rsmi ++ [(i, r.smile)] } := by
  have h1 : create_vocab_step pm i r st
      = { st with error_rsmi := st.error_rsmi ++ [(i, r.smile)] } := by
    rw [create_vocab_step, h]
  refine ⟨h1, ?_, ?_⟩
  · have h2 : tokenize_example pm rTokens pTokens r = none := by
      rw [tokenize_example, h]
      rfl
    rw [tokenize_data_step, h2]
  · have h3 : create_vocab_loop pm i (r :: rs) st
        = create_vocab_loop pm (i + 1) rs (create_vocab_step pm i r st) := rfl
    rw [h3, h1]

theorem C6_witness :
    create_vocab_step (fun s => if s = "C" then some ["C"] else none) 0
        ⟨"X>>C", ["X"], ["C"], ["C"]⟩ ⟨[], [], []⟩
      = ⟨[], [], [(0, "X>>C")]⟩
      ∧ tokenize_data_step (fun s => if s = "C" then some ["C"] else none)
          [] [] 0 ⟨"X>>C", ["X"], ["C"], ["C"]⟩ ⟨[], []⟩
        = ⟨[], [(0, "X>>C")]⟩
      ∧ create_vocab_loop (fun s => if s = "C" then some ["C"] else none) 0
          [⟨"X>>C", ["X"], ["C"], ["C"]⟩] ⟨[], [], []⟩
        = create_vocab_loop (fun s => if s = "C" then some ["C"] else none) 1
            [] ⟨[], [], [(0, "X>>C")]⟩ :=
  C6_amended (fun s => if s = "C" then some ["C"] else none) [] [] 0
    ⟨"X>>C", ["X"], ["C"], ["C"]⟩ ⟨[], [], []⟩ ⟨[], []⟩ [] (by decide)
